import Mathlib

/-!
Shallow embedding of `accesslog.cpp` (martin-decky/accesslog): a streaming
filter that demultiplexes a merged web-server access log into per-domain,
per-month log files.  Strings are modelled as `List Char` (the program treats
lines as byte/char sequences); machine `long int` values are modelled as
unbounded `Int` (every integer token in this program is at most 5 characters,
far from overflow, and `strtol` overflow clamping does not change the
success/failure behaviour that the claims are about).  Filesystem effects are
modelled by the `WriteReq` record that `process_entry` emits on the happy
path: the directory whose existence is ensured via `mkdir`, the file opened
for append, and the bytes appended.
-/

deriving instance DecidableEq for Except

namespace Accesslog

/-- Error kinds thrown by the C++ code (all as `std::invalid_argument`,
distinguished by message):
`notAnInteger` = "Not an integer" (thrown by `decDecode`),
`invalidMonth` = "Invalid month '...'" (thrown by `monthDecode`),
`invalidFormat` = "Invalid date & time format" (the `default:` branch of the
token switch, ≥ 8 tokens),
`notFoundOrIncomplete` = "Date & time not found or not complete" (no regex
match, or the token loop ended before position 6). -/
inductive DtErr where
  | notAnInteger
  | invalidMonth
  | invalidFormat
  | notFoundOrIncomplete
deriving DecidableEq

/-- The `datetime` struct of the source (seven `long int` fields). -/
structure datetime where
  year : Int
  month : Int
  day : Int
  hour : Int
  minute : Int
  second : Int
  offset : Int
deriving DecidableEq

/-- The process-wide configuration: the `prefix` global (a `const string`,
"/home/httpd"; named `rootDir` here because `prefix` is a Lean keyword) and
the `suffix` global (set once in `main`). -/
structure Config where
  rootDir : String
  suffix : String
deriving DecidableEq

/-- One filesystem interaction of `process_entry`: `mkdir(dir)`, then append
`data` to the file `path` opened with `O_APPEND`. -/
structure WriteReq where
  dir : String
  path : String
  data : String
deriving DecidableEq

/-- C `isspace` in the "C" locale, as consulted by `strtol`. -/
def isSpaceB (c : Char) : Bool :=
  (c == ' ') || (c == '\t') || (c == '\n') || (c == '\x0b') || (c == '\x0c') || (c == '\r')

/-- C `isdigit`. -/
def isDigitB (c : Char) : Bool :=
  (decide ('0' ≤ c)) && (decide (c ≤ '9'))

/-- ASCII lowercase letter, i.e. the character class `[a-z]`. -/
def isLowerB (c : Char) : Bool :=
  (decide ('a' ≤ c)) && (decide (c ≤ 'z'))

/-- Value of a digit run, most significant first. -/
def digitsVal (ds : List Char) : Nat :=
  ds.foldl (fun a c => a * 10 + (c.toNat - 48)) 0

/-- `strtol` phase 1: skip leading whitespace. -/
def skipSpaces (s : List Char) : List Char := s.dropWhile isSpaceB

/-- `strtol` phase 2: the optional single sign character consumed after the
whitespace (1 if present, 0 if not). -/
def signLen (s : List Char) : Nat :=
  if (skipSpaces s).head? = some '+' ∨ (skipSpaces s).head? = some '-' then 1 else 0

/-- Whether the consumed sign is a minus. -/
def isNegSign (s : List Char) : Bool :=
  decide ((skipSpaces s).head? = some '-')

/-- `strtol` phase 3: the maximal digit run after whitespace and sign. -/
def strtolDigits (s : List Char) : List Char :=
  ((skipSpaces s).drop (signLen s)).takeWhile isDigitB

/-- `strtol(s, &err, 10)`: skip leading whitespace, then an optional sign,
then a maximal digit run.  Returns the value and the index `err` points at.
POSIX: if no digits were consumed, the value is 0 and `err` is reset to the
original start of the string (not past the whitespace/sign). -/
def strtol10 (s : List Char) : Int × Nat :=
  if strtolDigits s = [] then (0, 0)
  else (if isNegSign s then -(digitsVal (strtolDigits s) : Int)
        else (digitsVal (strtolDigits s) : Int),
        (s.takeWhile isSpaceB).length + signLen s + (strtolDigits s).length)

/-- `decDecode` of the source: `strtol` the whole string, throwing
"Not an integer" unless `err` ends up on the terminating NUL of `c_str()`.
`List.getD` with default `'\x00'` models exactly the NUL terminator. -/
def decDecode (s : List Char) : Except DtErr Int :=
  if s.getD (strtol10 s).2 '\x00' ≠ '\x00' then Except.error DtErr.notAnInteger
  else Except.ok (strtol10 s).1

/-- Digit character of a value 0–9 (as produced by `ostringstream <<`). -/
def digitChar : Nat → Char
  | 0 => '0'
  | 1 => '1'
  | 2 => '2'
  | 3 => '3'
  | 4 => '4'
  | 5 => '5'
  | 6 => '6'
  | 7 => '7'
  | 8 => '8'
  | 9 => '9'
  | _ => '0'

/-- Decimal digits of a natural number, most significant first (fuel-indexed
so that it is structural and kernel-reducible; fuel `n + 1` always suffices). -/
def natDigitsAux : Nat → Nat → List Char
  | 0, _ => []
  | f + 1, n =>
    if n < 10 then [digitChar n]
    else natDigitsAux f (n / 10) ++ [digitChar (n % 10)]

def natDigits (n : Nat) : List Char := natDigitsAux (n + 1) n

/-- `decEncode` of the source: `ostringstream << value` for a `long int`. -/
def decEncode (value : Int) : List Char :=
  if value < 0 then '-' :: natDigits value.natAbs else natDigits value.toNat

/-- The `while (ret.length() < num) ret = "0" + ret;` loop of `leadzero`,
with fuel (`num` iterations always suffice). -/
def leadzeroLoop : Nat → List Char → Nat → List Char
  | 0, ret, _ => ret
  | f + 1, ret, num =>
    if ret.length < num then leadzeroLoop f ('0' :: ret) num else ret

/-- `leadzero` of the source: left-pad with `'0'` up to `num` characters,
except that a non-empty string whose first character is not a digit is
returned unchanged. -/
def leadzero (str : List Char) (num : Nat) : List Char :=
  if 0 < str.length ∧ (str.getD 0 '\x00' < '0' ∨ '9' < str.getD 0 '\x00') then str
  else leadzeroLoop num str num

/-- `monthDecode` of the source: case-sensitive three-letter abbreviations. -/
def monthDecode (month : List Char) : Except DtErr Int :=
  if month = "Jan".data then Except.ok 1
  else if month = "Feb".data then Except.ok 2
  else if month = "Mar".data then Except.ok 3
  else if month = "Apr".data then Except.ok 4
  else if month = "May".data then Except.ok 5
  else if month = "Jun".data then Except.ok 6
  else if month = "Jul".data then Except.ok 7
  else if month = "Aug".data then Except.ok 8
  else if month = "Sep".data then Except.ok 9
  else if month = "Oct".data then Except.ok 10
  else if month = "Nov".data then Except.ok 11
  else if month = "Dec".data then Except.ok 12
  else Except.error DtErr.invalidMonth

/-- `find_first` of the source: index of the first occurrence of `delim` at
or after `start`, or the length of the string. -/
def find_first (s : List Char) (delim : Char) (start : Nat) : Nat :=
  (((List.range s.length).find? fun pos =>
    (decide (start ≤ pos)) && (s.getD pos '\x00' == delim))).getD s.length

/-- `find_until` of the source: index of the first character at or after
`start` that differs from `until'`, or the length of the string. -/
def find_until (s : List Char) (until' : Char) (start : Nat) : Nat :=
  (((List.range s.length).find? fun pos =>
    (decide (start ≤ pos)) && !(s.getD pos '\x00' == until'))).getD s.length

/-- `split_domain`, inner loop: boost `char_separator(".", "", keep_empty_tokens)`
semantics — split on `'.'`, keeping empty tokens (adjacent, leading and
trailing separators each contribute an empty token). -/
def splitKeepAux : List Char → List Char → List (List Char)
  | [], acc => [acc.reverse]
  | c :: rest, acc =>
    if c = '.' then acc.reverse :: splitKeepAux rest []
    else splitKeepAux rest (c :: acc)

/-- `split_domain` of the source. -/
def split_domain (domain : List Char) : List (List Char) := splitKeepAux domain []

/-- One position of the date-time signature regex
`\[../.../....:..:..:.. .....\]` (boost, `match_default`): a fixed-width
28-character window whose positions 0, 3, 7, 12, 15, 18, 21 and 27 are the
literal characters `[`, `/`, `/`, `:`, `:`, `:`, a space and `]`; every `.`
matches any character. -/
def matchAt (s : List Char) (i : Nat) : Bool :=
  (decide (i + 28 ≤ s.length)) &&
  (s.getD i '\x00' == '[') &&
  (s.getD (i + 3) '\x00' == '/') &&
  (s.getD (i + 7) '\x00' == '/') &&
  (s.getD (i + 12) '\x00' == ':') &&
  (s.getD (i + 15) '\x00' == ':') &&
  (s.getD (i + 18) '\x00' == ':') &&
  (s.getD (i + 21) '\x00' == ' ') &&
  (s.getD (i + 27) '\x00' == ']')

/-- `regex_search`: the start index of the leftmost match of the date-time
signature, if any. -/
def findMatch (s : List Char) : Option Nat :=
  (List.range (s.length + 1)).find? fun i => matchAt s i

/-- The separator set of the second tokenizer,
`char_separator("[/: ]", "", drop_empty_tokens)` — note that this is a plain
list of separator characters, so `[` and `]` are separators too. -/
def dtDelim (c : Char) : Bool :=
  (c == '[') || (c == '/') || (c == ':') || (c == ' ') || (c == ']')

/-- Tokenizing loop with `drop_empty_tokens`: empty tokens are not emitted. -/
def splitDropAux : List Char → List Char → List (List Char)
  | [], acc => if acc.isEmpty then [] else [acc.reverse]
  | c :: rest, acc =>
    if dtDelim c then
      if acc.isEmpty then splitDropAux rest []
      else acc.reverse :: splitDropAux rest []
    else splitDropAux rest (c :: acc)

/-- Split a matched date-time signature into tokens. -/
def splitDT (l : List Char) : List (List Char) := splitDropAux l []

/-- One arm of the `switch (pos)` in `extract_datetime`: how the token at
position `pos` is decoded.  Positions beyond 6 hit the `default:` branch,
which throws "Invalid date & time format". -/
def decodePos (pos : Nat) (t : List Char) : Except DtErr Int :=
  if pos = 0 then decDecode t
  else if pos = 1 then monthDecode t
  else if pos = 2 then decDecode t
  else if pos = 3 then decDecode t
  else if pos = 4 then decDecode t
  else if pos = 5 then decDecode t
  else if pos = 6 then decDecode t
  else Except.error DtErr.invalidFormat

/-- Which `datetime` field the token at position `pos` is stored into. -/
def setField (pos : Nat) (v : Int) (res : datetime) : datetime :=
  if pos = 0 then { res with day := v }
  else if pos = 1 then { res with month := v }
  else if pos = 2 then { res with year := v }
  else if pos = 3 then { res with hour := v }
  else if pos = 4 then { res with minute := v }
  else if pos = 5 then { res with second := v }
  else if pos = 6 then { res with offset := v }
  else res

/-- The token loop of `extract_datetime`: walk the tokens with a position
counter, decoding each into its field; `valid` becomes true exactly when
position 6 (the offset) has been consumed. -/
def decToks : List (List Char) → Nat → datetime → Bool → Except DtErr (datetime × Bool)
  | [], _, res, valid => Except.ok (res, valid)
  | t :: rest, pos, res, valid =>
    match decodePos pos t with
    | Except.error e => Except.error e
    | Except.ok v => decToks rest (pos + 1) (setField pos v res) (valid || (pos == 6))

/-- The `datetime res` local of `extract_datetime` is uninitialised in the
C++ source; all seven fields are assigned before `res` is returned whenever
`valid` is true, so a zero initialisation is observationally equivalent. -/
def dt0 : datetime := ⟨0, 0, 0, 0, 0, 0, 0⟩

/-- The tokens of the 28-character match starting at index `i`. -/
def matchToks (s : List Char) (i : Nat) : List (List Char) :=
  splitDT ((s.drop i).take 28)

/-- `extract_datetime` of the source. -/
def extract_datetime (s : List Char) : Except DtErr datetime :=
  match findMatch s with
  | none => Except.error DtErr.notFoundOrIncomplete
  | some i =>
    match decToks (matchToks s i) 0 dt0 false with
    | Except.error e => Except.error e
    | Except.ok (res, valid) =>
      if valid then Except.ok res else Except.error DtErr.notFoundOrIncomplete

/-- `domain_start` of `process_entry`: skip leading spaces. -/
def domain_start (e : List Char) : Nat := find_until e ' ' 0

/-- `domain_end` of `process_entry`: first space after the domain field. -/
def domain_end (e : List Char) : Nat := find_first e ' ' (domain_start e)

/-- `log_start` of `process_entry`: skip the spaces after the domain field. -/
def log_start (e : List Char) : Nat := find_until e ' ' (domain_end e)

/-- The `domain` local: `entry.substr(domain_start, domain_end - domain_start)`. -/
def domainOf (e : List Char) : List Char :=
  (e.drop (domain_start e)).take (domain_end e - domain_start e)

/-- The `access` local: `entry.substr(log_start)`. -/
def accessOf (e : List Char) : List Char := e.drop (log_start e)

/-- The `log_dir` local of `process_entry`:
`prefix + "/" + parts[n-2] + "." + parts[n-1] + "/logs/" +
 leadzero(decEncode(year), 4) + "-" + leadzero(decEncode(month)) + suffix`
(the C++ indexing `parts[n-2]`, `parts[n-1]` is in bounds because the caller
checked `n ≥ 2`; `getD` with default `[]` is then exact). -/
def log_dir (cfg : Config) (e : List Char) (t : datetime) : String :=
  cfg.rootDir ++ "/" ++
    String.mk ((split_domain (domainOf e)).getD ((split_domain (domainOf e)).length - 2) []) ++
    "." ++
    String.mk ((split_domain (domainOf e)).getD ((split_domain (domainOf e)).length - 1) []) ++
    "/logs/" ++ String.mk (leadzero (decEncode t.year) 4) ++ "-" ++
    String.mk (leadzero (decEncode t.month) 2) ++ cfg.suffix

/-- `process_entry` of the source.  The result is
`.ok none` when the line is silently discarded (empty domain field, no text
after the domain field, or fewer than two domain labels),
`.error e` when an exception propagates to the caller (all of them come from
`extract_datetime`), and
`.ok (some w)` when the happy path is reached: `mkdir(w.dir)` and an append
of `w.data` (the access text plus a newline, written by two `write_long`
calls on the same `O_APPEND` descriptor) to the file `w.path`.  `mkdir` and
`open` failures are ignored by the code and belong to the environment, not to
the computation modelled here. -/
def process_entry (cfg : Config) (entry : String) : Except DtErr (Option WriteReq) :=
  if log_start entry.data < entry.data.length ∧
      domain_start entry.data < domain_end entry.data then
    if 2 ≤ (split_domain (domainOf entry.data)).length then
      match extract_datetime (accessOf entry.data) with
      | Except.error err => Except.error err
      | Except.ok t =>
        Except.ok (some
          { dir := log_dir cfg entry.data t
            path := log_dir cfg entry.data t ++ "/" ++ String.mk (domainOf entry.data)
            data := String.mk (accessOf entry.data) ++ "\n" })
    else Except.ok none
  else Except.ok none

/-- `process_entry` as the stream driver sees it: the globals (`prefix`,
`suffix`) threaded explicitly.  The body of the C++ function contains no
assignment to either global, so the state component is returned unchanged. -/
def process_entry_st (cfg : Config) (entry : String) :
    Config × Except DtErr (Option WriteReq) :=
  (cfg, process_entry cfg entry)

/-- The `while (getline(cin, entry))` loop of `main`: process each line in
order, threading the global state through the calls.  Per-line exceptions are
caught and reported, so every line is processed. -/
def process_lines (cfg : Config) : List String → Config × List (Except DtErr (Option WriteReq))
  | [] => (cfg, [])
  | l :: ls =>
    let p := process_entry_st cfg l
    let q := process_lines p.1 ls
    (q.1, p.2 :: q.2)

/-- `regex_search` with the pattern `[a-z]*` of `main`: a starred character
class matches the empty string, so it matches at every position; the leftmost
match starts at index 0 and, the star being greedy, is the maximal run of
lowercase letters from there — i.e. the longest lowercase prefix of the
argument.  The search therefore always succeeds. -/
def regexSearchLcStar (l : List Char) : Option (List Char) :=
  some (l.takeWhile isLowerB)

/-- The suffix computation of `main`: with an argument present, `suffix`
becomes `"." + match[0]`; with no argument, `suffix` keeps its initial value
`""`. -/
def computeSuffix (arg : Option String) : String :=
  match arg with
  | none => ""
  | some a =>
    match regexSearchLcStar a.data with
    | some m => "." ++ String.mk m
    | none => ""

/-! ### Spec-side definitions

These are written from the words of the specification (not from the source)
and exist only to be compared against the source-derived definitions above. -/

/-- Modelled from the spec's words in C2: the claimed timestamp shape
`[` + 2 chars + `-` + 3 chars + `-` + 4 chars + `:` + 2 chars + `:` + 2 chars
+ `:` + 2 chars + space + 5 chars + `]`, i.e. with dash separators between
day, month and year. -/
def dashShapeAt (s : List Char) (i : Nat) : Bool :=
  (decide (i + 28 ≤ s.length)) &&
  (s.getD i '\x00' == '[') &&
  (s.getD (i + 3) '\x00' == '-') &&
  (s.getD (i + 7) '\x00' == '-') &&
  (s.getD (i + 12) '\x00' == ':') &&
  (s.getD (i + 15) '\x00' == ':') &&
  (s.getD (i + 18) '\x00' == ':') &&
  (s.getD (i + 21) '\x00' == ' ') &&
  (s.getD (i + 27) '\x00' == ']')

/-- Modelled from the spec's words in C2: the text contains the dash-shaped
timestamp somewhere. -/
def hasDashShape (s : List Char) : Bool :=
  (List.range (s.length + 1)).any fun i => dashShapeAt s i

/-- Modelled from the spec's words in C3: unconditional left zero-padding to
width `num` ("zero-padded to 4 digits" / "to 2 digits"), with no guard on the
first character. -/
def specPad (s : List Char) (num : Nat) : List Char :=
  List.replicate (num - s.length) '0' ++ s

/-- Modelled from the spec's words in C6: a fully numeric string as `strtol`
consumes it — optional whitespace, an optional single sign, and a non-empty
digit run, with nothing after it. -/
def NumShape (s : List Char) : Prop :=
  ∃ w g d, s = w ++ g ++ d ∧ (∀ c ∈ w, isSpaceB c = true) ∧
    (g = [] ∨ g = ['+'] ∨ g = ['-']) ∧ d ≠ [] ∧ (∀ c ∈ d, isDigitB c = true)

/-- All tokens of a (possibly short) token list decode in their positional
roles (position 0 day, 1 month abbreviation, 2 year, …, 6 offset). -/
def allPosOK : Nat → List (List Char) → Bool
  | _, [] => true
  | pos, t :: rest => (decodePos pos t).isOk && allPosOK (pos + 1) rest

/-! ### Helper lemmas -/

@[simp] lemma except_isOk_ok {ε α : Type} (a : α) :
    (Except.ok a : Except ε α).isOk = true := rfl

@[simp] lemma except_isOk_error {ε α : Type} (e : ε) :
    (Except.error e : Except ε α).isOk = false := rfl

lemma takeWhile_append_eq (p : Char → Bool) (w l : List Char)
    (hw : ∀ c ∈ w, p c = true) (hl : ∀ c, l.head? = some c → p c = false) :
    (w ++ l).takeWhile p = w := by
  induction w with
  | nil =>
    cases l with
    | nil => rfl
    | cons c cs => simp [List.takeWhile_cons, hl c rfl]
  | cons a as ih =>
    have ha := hw a (by simp)
    simp only [List.cons_append, List.takeWhile_cons, ha, if_pos]
    rw [ih (fun c hc => hw c (by simp [hc]))]

lemma dropWhile_append_eq (p : Char → Bool) (w l : List Char)
    (hw : ∀ c ∈ w, p c = true) (hl : ∀ c, l.head? = some c → p c = false) :
    (w ++ l).dropWhile p = l := by
  induction w with
  | nil =>
    cases l with
    | nil => rfl
    | cons c cs => simp [List.dropWhile_cons, hl c rfl]
  | cons a as ih =>
    have ha := hw a (by simp)
    simp only [List.cons_append, List.dropWhile_cons, ha, if_pos]
    exact ih (fun c hc => hw c (by simp [hc]))

lemma takeWhile_self_eq (p : Char → Bool) (l : List Char)
    (h : ∀ c ∈ l, p c = true) : l.takeWhile p = l := by
  have := takeWhile_append_eq p l [] h (by intro c hc; simp at hc)
  simpa using this

lemma isDigitB_not_space (c : Char) (h : isDigitB c = true) : isSpaceB c = false := by
  unfold isDigitB at h
  unfold isSpaceB
  simp only [Bool.and_eq_true, decide_eq_true_eq] at h
  simp only [Bool.or_eq_false_iff, beq_eq_false_iff_ne, ne_eq]
  refine ⟨⟨⟨⟨⟨?_, ?_⟩, ?_⟩, ?_⟩, ?_⟩, ?_⟩ <;>
    (rintro rfl; revert h; decide)

lemma isDigitB_not_plus (c : Char) (h : isDigitB c = true) : c ≠ '+' := by
  rintro rfl; revert h; decide

lemma isDigitB_not_minus (c : Char) (h : isDigitB c = true) : c ≠ '-' := by
  rintro rfl; revert h; decide

lemma leadzeroLoop_eq (f : Nat) : ∀ (ret : List Char) (num : Nat), num ≤ ret.length + f →
    leadzeroLoop f ret num = List.replicate (num - ret.length) '0' ++ ret := by
  induction f with
  | zero =>
    intro ret num h
    simp [leadzeroLoop, Nat.sub_eq_zero_of_le (by omega : num ≤ ret.length)]
  | succ f ih =>
    intro ret num h
    by_cases hlt : ret.length < num
    · have h2 : num ≤ ('0' :: ret).length + f := by simp; omega
      have hrw : num - ret.length = (num - ('0' :: ret).length) + 1 := by simp; omega
      simp only [leadzeroLoop, if_pos hlt, ih ('0' :: ret) num h2, hrw,
        List.replicate_succ']
      simp
    · simp [leadzeroLoop, hlt, Nat.sub_eq_zero_of_le (by omega : num ≤ ret.length)]

lemma splitKeepAux_length (l : List Char) : ∀ acc : List Char,
    (splitKeepAux l acc).length = l.count '.' + 1 := by
  induction l with
  | nil => intro acc; simp [splitKeepAux]
  | cons c rest ih =>
    intro acc
    by_cases hc : c = '.'
    · subst hc
      simp [splitKeepAux, ih, List.count_cons]
    · simp [splitKeepAux, hc, ih, List.count_cons]

lemma split_domain_length (d : List Char) :
    (split_domain d).length = d.count '.' + 1 := splitKeepAux_length d []

/-- In a NUL-free string, reading the index right after a prefix can only see
the NUL terminator when nothing follows the prefix. -/
lemma append_getD_nul (A R : List Char) (hnul : ∀ c ∈ A ++ R, c ≠ '\x00')
    (h : (A ++ R).getD A.length '\x00' = '\x00') : R = [] := by
  cases R with
  | nil => rfl
  | cons c cs =>
    rw [List.getD_append_right _ _ _ _ (le_refl _), Nat.sub_self] at h
    simp at h
    exact absurd h (hnul c (by simp))

lemma decDecode_ok_getD (s : List Char) (h : (decDecode s).isOk = true) :
    s.getD (strtol10 s).2 '\x00' = '\x00' := by
  unfold decDecode at h
  by_cases hc : s.getD (strtol10 s).2 '\x00' ≠ '\x00'
  · rw [if_pos hc] at h; simp at h
  · push_neg at hc; exact hc

lemma strtol10_end_nil (s : List Char) (h : strtolDigits s = []) :
    (strtol10 s).2 = 0 := by
  unfold strtol10; rw [if_pos h]

lemma strtol10_end_cons (s : List Char) (h : strtolDigits s ≠ []) :
    (strtol10 s).2 =
      (s.takeWhile isSpaceB).length + signLen s + (strtolDigits s).length := by
  unfold strtol10; rw [if_neg h]

/-- `strtol`'s four consumption regions partition the input. -/
lemma strtol_decomp (s : List Char) :
    s = s.takeWhile isSpaceB ++ ((skipSpaces s).take (signLen s) ++ (strtolDigits s ++
        ((skipSpaces s).drop (signLen s)).dropWhile isDigitB)) := by
  have h1 : s.takeWhile isSpaceB ++ skipSpaces s = s :=
    List.takeWhile_append_dropWhile isSpaceB s
  have h2 : (skipSpaces s).take (signLen s) ++ (skipSpaces s).drop (signLen s) =
      skipSpaces s := List.take_append_drop _ _
  have h3 : strtolDigits s ++ ((skipSpaces s).drop (signLen s)).dropWhile isDigitB =
      (skipSpaces s).drop (signLen s) := List.takeWhile_append_dropWhile isDigitB _
  conv_lhs => rw [← h1, ← h2, ← h3]

lemma signPart_cases (s : List Char) :
    (skipSpaces s).take (signLen s) = [] ∨ (skipSpaces s).take (signLen s) = ['+'] ∨
      (skipSpaces s).take (signLen s) = ['-'] := by
  unfold signLen
  split_ifs with h
  · rcases h with h | h <;>
      (cases hs : skipSpaces s with
       | nil => rw [hs] at h; simp at h
       | cons c cs =>
         rw [hs] at h
         simp at h
         subst h
         simp)
  · left; simp

lemma signPart_length (s : List Char) :
    ((skipSpaces s).take (signLen s)).length = signLen s := by
  unfold signLen
  split_ifs with h
  · rcases h with h | h <;>
      (cases hs : skipSpaces s with
       | nil => rw [hs] at h; simp at h
       | cons c cs => simp [hs])
  · simp

lemma decodePos_ge7 (pos : Nat) (t : List Char) (h : 7 ≤ pos) :
    decodePos pos t = Except.error DtErr.invalidFormat := by
  unfold decodePos
  split_ifs <;> first | rfl | omega

lemma decToks_ok_allPosOK : ∀ (ts : List (List Char)) (pos : Nat) (res : datetime)
    (valid : Bool) (p : datetime × Bool),
    decToks ts pos res valid = Except.ok p → allPosOK pos ts = true := by
  intro ts
  induction ts with
  | nil => intro pos res valid p _; rfl
  | cons t rest ih =>
    intro pos res valid p h
    rw [decToks] at h
    cases hd : decodePos pos t with
    | error e => rw [hd] at h; simp at h
    | ok v =>
      rw [hd] at h
      simp only [allPosOK, hd, except_isOk_ok, Bool.true_and]
      exact ih (pos + 1) _ _ p h

lemma decToks_ok_le7 : ∀ (ts : List (List Char)) (pos : Nat) (res : datetime)
    (valid : Bool) (p : datetime × Bool), ts ≠ [] →
    decToks ts pos res valid = Except.ok p → pos + ts.length ≤ 7 := by
  intro ts
  induction ts with
  | nil => intro pos res valid p hne _; exact absurd rfl hne
  | cons t rest ih =>
    intro pos res valid p _ h
    rw [decToks] at h
    cases hd : decodePos pos t with
    | error e => rw [hd] at h; simp at h
    | ok v =>
      rw [hd] at h
      have hpos : pos ≤ 6 := by
        by_contra h7
        rw [decodePos_ge7 pos t (by omega)] at hd
        simp at hd
      cases rest with
      | nil => simp; omega
      | cons r rs =>
        have := ih (pos + 1) _ _ p (by simp) h
        simp at this ⊢
        omega

lemma decToks_ok_true_ge7 : ∀ (ts : List (List Char)) (pos : Nat) (res : datetime)
    (valid : Bool) (r : datetime),
    decToks ts pos res valid = Except.ok (r, true) →
    valid = true ∨ 7 ≤ pos + ts.length := by
  intro ts
  induction ts with
  | nil =>
    intro pos res valid r h
    rw [decToks] at h
    simp at h
    exact Or.inl h.2
  | cons t rest ih =>
    intro pos res valid r h
    rw [decToks] at h
    cases hd : decodePos pos t with
    | error e => rw [hd] at h; simp at h
    | ok v =>
      rw [hd] at h
      rcases ih (pos + 1) _ _ r h with hv | hlen
      · rcases Bool.or_eq_true_iff.mp hv with hv | h6
        · exact Or.inl hv
        · right
          have : pos = 6 := by simpa using h6
          simp
          omega
      · right; simp; omega

lemma decToks_run_full : ∀ (ts : List (List Char)) (pos : Nat) (res : datetime)
    (valid : Bool), pos + ts.length = 7 → pos ≤ 6 → allPosOK pos ts = true →
    ∃ r, decToks ts pos res valid = Except.ok (r, true) := by
  intro ts
  induction ts with
  | nil => intro pos res valid hlen hpos _; simp at hlen; omega
  | cons t rest ih =>
    intro pos res valid hlen hpos hall
    simp only [allPosOK, Bool.and_eq_true] at hall
    cases hd : decodePos pos t with
    | error e => rw [hd] at hall; simp at hall
    | ok v =>
      rw [decToks, hd]
      cases rest with
      | nil =>
        have h6 : pos = 6 := by simp at hlen; omega
        subst h6
        exact ⟨setField 6 v res, by simp [decToks]⟩
      | cons r rs =>
        refine ih (pos + 1) (setField pos v res) (valid || (pos == 6)) ?_ ?_ hall.2
        · simp at hlen ⊢; omega
        · simp at hlen; omega

lemma decToks_run_short : ∀ (ts : List (List Char)) (pos : Nat) (res : datetime)
    (valid : Bool), pos + ts.length ≤ 6 → allPosOK pos ts = true →
    ∃ r, decToks ts pos res valid = Except.ok (r, valid) := by
  intro ts
  induction ts with
  | nil => intro pos res valid _ _; exact ⟨res, rfl⟩
  | cons t rest ih =>
    intro pos res valid hlen hall
    simp only [allPosOK, Bool.and_eq_true] at hall
    cases hd : decodePos pos t with
    | error e => rw [hd] at hall; simp at hall
    | ok v =>
      rw [decToks, hd]
      have h6 : (pos == 6) = false := by
        simp at hlen ⊢
        omega
      rw [h6, Bool.or_false]
      refine ih (pos + 1) (setField pos v res) valid ?_ hall.2
      simp at hlen ⊢
      omega

lemma decToks_run_long : ∀ (ts : List (List Char)) (pos : Nat) (res : datetime)
    (valid : Bool), 8 ≤ pos + ts.length → pos ≤ 7 →
    allPosOK pos (ts.take (7 - pos)) = true →
    decToks ts pos res valid = Except.error DtErr.invalidFormat := by
  intro ts
  induction ts with
  | nil => intro pos res valid hlen hpos _; simp at hlen; omega
  | cons t rest ih =>
    intro pos res valid hlen hpos hall
    by_cases h7 : pos = 7
    · subst h7
      rw [decToks, decodePos_ge7 7 t (le_refl 7)]
    · have hpos6 : pos ≤ 6 := by omega
      have htake : (t :: rest).take (7 - pos) = t :: rest.take (7 - (pos + 1)) := by
        have : 7 - pos = (7 - (pos + 1)) + 1 := by omega
        rw [this]
        rfl
      rw [htake] at hall
      simp only [allPosOK, Bool.and_eq_true] at hall
      cases hd : decodePos pos t with
      | error e => rw [hd] at hall; simp at hall
      | ok v =>
        rw [decToks, hd]
        refine ih (pos + 1) (setField pos v res) (valid || (pos == 6)) ?_ (by omega) hall.2
        simp at hlen ⊢
        omega

lemma decToks_cons_ok (t : List Char) (rest : List (List Char)) (pos : Nat)
    (res : datetime) (valid : Bool) (v : Int) (hd : decodePos pos t = Except.ok v) :
    decToks (t :: rest) pos res valid =
      decToks rest (pos + 1) (setField pos v res) (valid || (pos == 6)) := by
  rw [decToks, hd]

lemma natDigitsAux_head : ∀ (f n : Nat), 0 < f →
    ∃ k r, natDigitsAux f n = digitChar k :: r ∧ k < 10 := by
  intro f
  induction f with
  | zero => intro n h; omega
  | succ f ih =>
    intro n _
    by_cases h10 : n < 10
    · exact ⟨n, [], by simp [natDigitsAux, h10], h10⟩
    · by_cases hf : f = 0
      · subst hf
        refine ⟨n % 10, [], ?_, by omega⟩
        simp [natDigitsAux, h10]
      · obtain ⟨k, r, heq, hk⟩ := ih (n / 10) (by omega)
        refine ⟨k, r ++ [digitChar (n % 10)], ?_, hk⟩
        simp [natDigitsAux, h10, heq]

lemma digitChar_digit (k : Nat) (h : k < 10) :
    '0' ≤ digitChar k ∧ digitChar k ≤ '9' := by
  interval_cases k <;> exact ⟨by decide, by decide⟩

lemma decEncode_head (v : Int) (h : 0 ≤ v) :
    ∃ k r, decEncode v = digitChar k :: r ∧ k < 10 := by
  unfold decEncode
  rw [if_neg (by omega)]
  unfold natDigits
  exact natDigitsAux_head _ _ (by omega)

lemma leadzero_eq_specPad_digit (s : List Char) (num : Nat) (k : Nat) (r : List Char)
    (hs : s = digitChar k :: r) (hk : k < 10) :
    leadzero s num = specPad s num := by
  subst hs
  have hd := digitChar_digit k hk
  unfold leadzero specPad
  rw [if_neg ?hg]
  case hg =>
    rintro ⟨_, hc | hc⟩
    · simp at hc
      exact absurd hc (not_lt.mpr hd.1)
    · simp at hc
      exact absurd hc (not_lt.mpr hd.2)
  exact leadzeroLoop_eq num _ num (by omega)

lemma monthDecode_bounds (m : List Char) (v : Int) (h : monthDecode m = Except.ok v) :
    1 ≤ v ∧ v ≤ 12 := by
  unfold monthDecode at h
  by_cases hm1 : m = "Jan".data
  · rw [if_pos hm1] at h; injection h with hv; omega
  rw [if_neg hm1] at h
  by_cases hm2 : m = "Feb".data
  · rw [if_pos hm2] at h; injection h with hv; omega
  rw [if_neg hm2] at h
  by_cases hm3 : m = "Mar".data
  · rw [if_pos hm3] at h; injection h with hv; omega
  rw [if_neg hm3] at h
  by_cases hm4 : m = "Apr".data
  · rw [if_pos hm4] at h; injection h with hv; omega
  rw [if_neg hm4] at h
  by_cases hm5 : m = "May".data
  · rw [if_pos hm5] at h; injection h with hv; omega
  rw [if_neg hm5] at h
  by_cases hm6 : m = "Jun".data
  · rw [if_pos hm6] at h; injection h with hv; omega
  rw [if_neg hm6] at h
  by_cases hm7 : m = "Jul".data
  · rw [if_pos hm7] at h; injection h with hv; omega
  rw [if_neg hm7] at h
  by_cases hm8 : m = "Aug".data
  · rw [if_pos hm8] at h; injection h with hv; omega
  rw [if_neg hm8] at h
  by_cases hm9 : m = "Sep".data
  · rw [if_pos hm9] at h; injection h with hv; omega
  rw [if_neg hm9] at h
  by_cases hm10 : m = "Oct".data
  · rw [if_pos hm10] at h; injection h with hv; omega
  rw [if_neg hm10] at h
  by_cases hm11 : m = "Nov".data
  · rw [if_pos hm11] at h; injection h with hv; omega
  rw [if_neg hm11] at h
  by_cases hm12 : m = "Dec".data
  · rw [if_pos hm12] at h; injection h with hv; omega
  rw [if_neg hm12] at h
  exact Except.noConfusion h

lemma setField_month (pos : Nat) (v : Int) (res : datetime) (h : 2 ≤ pos) :
    (setField pos v res).month = res.month := by
  unfold setField
  split_ifs <;> first | omega | rfl

lemma decToks_month_preserved : ∀ (ts : List (List Char)) (pos : Nat) (res : datetime)
    (valid : Bool) (r : datetime) (b : Bool), 2 ≤ pos →
    decToks ts pos res valid = Except.ok (r, b) → r.month = res.month := by
  intro ts
  induction ts with
  | nil =>
    intro pos res valid r b _ h
    simp [decToks] at h
    rw [← h.1]
  | cons t rest ih =>
    intro pos res valid r b hpos h
    rw [decToks] at h
    cases hd : decodePos pos t with
    | error e => rw [hd] at h; simp at h
    | ok v =>
      rw [hd] at h
      have := ih (pos + 1) (setField pos v res) _ r b (by omega) h
      rw [this, setField_month pos v res hpos]

/-- A successfully extracted timestamp has a month in 1..12: the month field
can only have been written by `monthDecode`. -/
lemma extract_ok_month (s : List Char) (t : datetime)
    (h : extract_datetime s = Except.ok t) : 1 ≤ t.month ∧ t.month ≤ 12 := by
  cases hm : findMatch s with
  | none =>
    have hx : extract_datetime s = Except.error DtErr.notFoundOrIncomplete := by
      unfold extract_datetime; rw [hm]
    rw [hx] at h
    exact Except.noConfusion h
  | some i =>
    have hx : extract_datetime s =
        (match decToks (matchToks s i) 0 dt0 false with
         | Except.error e => Except.error e
         | Except.ok (res, valid) =>
           if valid then Except.ok res else Except.error DtErr.notFoundOrIncomplete) := by
      unfold extract_datetime
      rw [hm]
    rw [hx] at h
    cases hd : decToks (matchToks s i) 0 dt0 false with
    | error e => rw [hd] at h; simp at h
    | ok p =>
      obtain ⟨r, b⟩ := p
      rw [hd] at h
      cases b with
      | false => simp at h
      | true =>
        simp at h
        subst h
        cases hts : matchToks s i with
        | nil =>
          rw [hts] at hd
          simp [decToks] at hd
        | cons t0 rest =>
          rw [hts] at hd
          cases h0 : decodePos 0 t0 with
          | error e => rw [decToks, h0] at hd; simp at hd
          | ok v0 =>
            rw [decToks_cons_ok t0 rest 0 dt0 false v0 h0] at hd
            norm_num at hd
            cases rest with
            | nil => simp [decToks] at hd
            | cons t1 rest2 =>
              cases h1 : decodePos 1 t1 with
              | error e => rw [decToks, h1] at hd; simp at hd
              | ok v1 =>
                rw [decToks_cons_ok t1 rest2 1 _ _ v1 h1] at hd
                norm_num at hd
                have hmon := decToks_month_preserved rest2 2 _ _ r true (by omega) hd
                have hv1 : r.month = v1 := by
                  rw [hmon]
                  simp [setField]
                have hmd : monthDecode t1 = Except.ok v1 := by
                  rw [← h1]
                  simp [decodePos]
                have hb := monthDecode_bounds t1 v1 hmd
                rw [← hv1] at hb
                exact hb

/-! ### Theorems -/

/-- C1, counterexample.  On the spec's own end-to-end line (with the slash
separators the code actually matches), `process_entry` appends
`"[10/Mar/2020:14:22:01 +0000] GET /index.html 200\n"` — the text from the
first non-space character after the domain field — and not the
domain-onward text `"example.com [10/Mar/2020:14:22:01 +0000] GET
/index.html 200\n"` the claim describes; the stored record does not begin
with the domain name. -/
theorem C1_counterexample :
    process_entry ⟨"/home/httpd", ""⟩
      "  example.com [10/Mar/2020:14:22:01 +0000] GET /index.html 200" =
      Except.ok (some
        { dir := "/home/httpd/example.com/logs/2020-03"
          path := "/home/httpd/example.com/logs/2020-03/example.com"
          data := "[10/Mar/2020:14:22:01 +0000] GET /index.html 200\n" }) ∧
    ("[10/Mar/2020:14:22:01 +0000] GET /index.html 200\n" : String) ≠
      "example.com [10/Mar/2020:14:22:01 +0000] GET /index.html 200\n" ∧
    ("example.com".data.isPrefixOf
      "[10/Mar/2020:14:22:01 +0000] GET /index.html 200\n".data) = false := by
  refine ⟨by decide, by decide, by decide⟩

/-- C2, counterexample.  The text `"[10-Mar-2020:14:22:01 +0000]"` contains a
substring of exactly the dash-separated shape the claim describes, yet
`extract_datetime` fails on it, and a full line carrying it is routed to a
timestamp error with no file written — the code's regex requires `/` between
day, month and year. -/
theorem C2_counterexample :
    hasDashShape "[10-Mar-2020:14:22:01 +0000]".data = true ∧
    extract_datetime "[10-Mar-2020:14:22:01 +0000]".data =
      Except.error DtErr.notFoundOrIncomplete ∧
    process_entry ⟨"/home/httpd", ""⟩
      "example.com [10-Mar-2020:14:22:01 +0000] GET / 200" =
      Except.error DtErr.notFoundOrIncomplete := by
  refine ⟨by decide, by decide, by decide⟩

/-- C3, counterexample.  A routed line whose year token is `-001` (it decodes
to the integer -1) gets a destination month directory named `-1-03`: the year
component is the 2-character string `-1`, not the year zero-padded to 4
digits, because `leadzero` skips padding when the first character is not a
digit. -/
theorem C3_counterexample :
    process_entry ⟨"/home/httpd", ""⟩ "a.b [10/Mar/-001:14:22:01 +0000] x" =
      Except.ok (some
        { dir := "/home/httpd/a.b/logs/-1-03"
          path := "/home/httpd/a.b/logs/-1-03/a.b"
          data := "[10/Mar/-001:14:22:01 +0000] x\n" }) ∧
    ("/home/httpd/a.b/logs/-1-03" : String) ≠
      "/home/httpd" ++ "/" ++ "a" ++ "." ++ "b" ++ "/logs/" ++
        String.mk (specPad (decEncode (-1)) 4) ++ "-" ++
        String.mk (specPad (decEncode 3) 2) ++ "" := by
  refine ⟨by decide, by decide⟩

/-- C4, counterexample.  The text `"[XX/Mar/2020:14:22:01 +0000]"` matches
the signature and splits into exactly 7 tokens, yet extraction fails (with
the decimal-decode error on the day token `XX`): exactly 7 tokens is not
sufficient for success, so "succeeds if and only if exactly 7 tokens result"
is false. -/
theorem C4_counterexample :
    findMatch "[XX/Mar/2020:14:22:01 +0000]".data = some 0 ∧
    (matchToks "[XX/Mar/2020:14:22:01 +0000]".data 0).length = 7 ∧
    extract_datetime "[XX/Mar/2020:14:22:01 +0000]".data =
      Except.error DtErr.notAnInteger := by
  refine ⟨by decide, by decide, by decide⟩

/-- C6, counterexample.  `decDecode` on the empty string succeeds and returns
0 instead of failing: `strtol` consumes no digits, leaves `err` at the start
of the string, and the character there is the terminating NUL of `c_str()`,
so the error test `*err != 0` passes. -/
theorem C6_counterexample :
    decDecode "".data = Except.ok 0 ∧
    decDecode "".data ≠ Except.error DtErr.notAnInteger := by
  refine ⟨by decide, by decide⟩

/-- C7, counterexample.  With the argument `"123"` (no lowercase letters at
all), `regex_search` still succeeds — `[a-z]*` matches the empty string at
position 0 — so the suffix becomes `"."`, not the empty string the claim
requires; the empty argument gives `"."` as well. -/
theorem C7_counterexample :
    computeSuffix (some "123") = "." ∧ computeSuffix (some "") = "." ∧
    ("." : String) ≠ "" := by
  refine ⟨by decide, by decide, by decide⟩

/-- C1, amended.  For every routed line, the appended record is the verbatim
portion of the line from `log_start` — the first non-space character after
the domain field — to the end of the line, followed by a single newline (the
domain field itself is not part of the record). -/
theorem C1_appends_access_tail (cfg : Config) (entry : String) (w : WriteReq)
    (h : process_entry cfg entry = Except.ok (some w)) :
    w.data = String.mk (entry.data.drop (log_start entry.data)) ++ "\n" ∧
    log_start entry.data =
      find_until entry.data ' ' (find_first entry.data ' ' (find_until entry.data ' ' 0)) := by
  unfold process_entry at h
  split at h
  · split at h
    · cases hx : extract_datetime (accessOf entry.data) with
      | error e => rw [hx] at h; simp at h
      | ok t =>
        rw [hx] at h
        simp only [Except.ok.injEq, Option.some.injEq] at h
        subst h
        exact ⟨rfl, rfl⟩
    · simp at h
  · simp at h

/-- C1, witness for the amended theorem at the spec's end-to-end line. -/
theorem C1_appends_access_tail_witness :
    process_entry ⟨"/home/httpd", ""⟩
        "  example.com [10/Mar/2020:14:22:01 +0000] GET /index.html 200" =
      Except.ok (some
        { dir := "/home/httpd/example.com/logs/2020-03"
          path := "/home/httpd/example.com/logs/2020-03/example.com"
          data := "[10/Mar/2020:14:22:01 +0000] GET /index.html 200\n" }) ∧
    ("[10/Mar/2020:14:22:01 +0000] GET /index.html 200\n" : String) =
      String.mk ("  example.com [10/Mar/2020:14:22:01 +0000] GET /index.html 200".data.drop
        (log_start "  example.com [10/Mar/2020:14:22:01 +0000] GET /index.html 200".data)) ++ "\n" :=
  ⟨by decide,
   (C1_appends_access_tail ⟨"/home/httpd", ""⟩
     "  example.com [10/Mar/2020:14:22:01 +0000] GET /index.html 200"
     { dir := "/home/httpd/example.com/logs/2020-03"
       path := "/home/httpd/example.com/logs/2020-03/example.com"
       data := "[10/Mar/2020:14:22:01 +0000] GET /index.html 200\n" } (by decide)).1⟩

/-- C2, amended.  The signature the code searches for uses slash separators
(`[` + 2 chars + `/` + 3 chars + `/` + 4 chars + `:..:..:.. .....]`).
Containing such a substring is necessary (though not sufficient) for
extraction to succeed, and every line whose access text lacks it is either
silently discarded before extraction or fails with the timestamp error — in
both cases no file is written. -/
theorem C2_slash_signature_required :
    (∀ s : List Char, (extract_datetime s).isOk = true → (findMatch s).isSome = true) ∧
    (∀ (cfg : Config) (entry : String),
      findMatch (accessOf entry.data) = none →
      process_entry cfg entry = Except.ok none ∨
        process_entry cfg entry = Except.error DtErr.notFoundOrIncomplete) := by
  constructor
  · intro s h
    unfold extract_datetime at h
    cases hm : findMatch s with
    | none => rw [hm] at h; simp [Except.isOk, Except.toBool] at h
    | some i => simp [hm]
  · intro cfg entry hm
    have hx : extract_datetime (accessOf entry.data) =
        Except.error DtErr.notFoundOrIncomplete := by
      unfold extract_datetime; rw [hm]
    unfold process_entry
    split
    · split
      · rw [hx]; right; rfl
      · left; rfl
    · left; rfl

/-- C2, witness for the amended theorem: a text on which extraction succeeds
(hence the signature is present), and a two-label line with no signature that
routes to the timestamp error. -/
theorem C2_slash_signature_required_witness :
    ((extract_datetime "[10/Mar/2020:14:22:01 +0000]".data).isOk = true ∧
      (findMatch "[10/Mar/2020:14:22:01 +0000]".data).isSome = true) ∧
    (findMatch (accessOf "a.b hello".data) = none ∧
      (process_entry ⟨"/home/httpd", ""⟩ "a.b hello" = Except.ok none ∨
        process_entry ⟨"/home/httpd", ""⟩ "a.b hello" =
          Except.error DtErr.notFoundOrIncomplete)) :=
  ⟨⟨by decide, C2_slash_signature_required.1 _ (by decide)⟩,
   ⟨by decide, C2_slash_signature_required.2 ⟨"/home/httpd", ""⟩ "a.b hello" (by decide)⟩⟩

/-- C5: a line whose domain field is empty, or that has no text after the
domain field, or whose domain field has fewer than two labels, is silently
discarded: the result is `.ok none` — no write request and no error (in
particular none of the timestamp errors, so extraction was never reached). -/
theorem C5_silent_discard (cfg : Config) (entry : String)
    (h : domain_start entry.data = domain_end entry.data ∨
         entry.data.length ≤ log_start entry.data ∨
         (split_domain (domainOf entry.data)).length < 2) :
    process_entry cfg entry = Except.ok none := by
  unfold process_entry
  rcases h with h | h | h
  · rw [if_neg (by omega)]
  · rw [if_neg (by omega)]
  · by_cases hc : log_start entry.data < entry.data.length ∧
        domain_start entry.data < domain_end entry.data
    · rw [if_pos hc, if_neg (by omega)]
    · rw [if_neg hc]

/-- C5, witness: the single-label line `"a xyz"` (whose tail even lacks any
timestamp) is discarded without an error. -/
theorem C5_silent_discard_witness :
    (split_domain (domainOf "a xyz".data)).length < 2 ∧
    process_entry ⟨"/home/httpd", ""⟩ "a xyz" = Except.ok none :=
  ⟨by decide,
   C5_silent_discard ⟨"/home/httpd", ""⟩ "a xyz" (Or.inr (Or.inr (by decide)))⟩

/-- C8: the stream driver threads the process-wide configuration through
every call unchanged, and each line's result is computed from the startup
configuration alone — lines are processed statelessly, with no cross-line
memory. -/
theorem C8_config_frame (cfg : Config) (lines : List String) :
    process_lines cfg lines =
      (cfg, lines.map fun l => (process_entry_st cfg l).2) := by
  induction lines with
  | nil => rfl
  | cons l ls ih => simp [process_lines, process_entry_st, ih]

/-- C9: `leadzero` pads the empty string to `w` zeros for every width `w`:
the first-character guard only applies to non-empty strings. -/
theorem C9_leadzero_empty (w : Nat) : leadzero [] w = List.replicate w '0' := by
  unfold leadzero
  rw [if_neg (by simp)]
  simpa using leadzeroLoop_eq w [] w (by omega)

/-- C10: splitting keeps empty labels, so any domain field containing a dot
has at least two labels and passes the two-label check — such a line is never
silently discarded (it either routes or fails in timestamp extraction); `"."`
splits into two empty labels, and a domain field `"a."` is routed, with the
month directory `a.` and file name `a.`. -/
theorem C10_dot_domains_routable :
    (∀ d : List Char, '.' ∈ d → 2 ≤ (split_domain d).length) ∧
    split_domain ".".data = [[], []] ∧
    (∀ (cfg : Config) (entry : String),
      log_start entry.data < entry.data.length →
      domain_start entry.data < domain_end entry.data →
      '.' ∈ domainOf entry.data →
      process_entry cfg entry ≠ Except.ok none) ∧
    process_entry ⟨"/home/httpd", ".t"⟩ "a. [10/Mar/2020:14:22:01 +0000] x" =
      Except.ok (some
        { dir := "/home/httpd/a./logs/2020-03.t"
          path := "/home/httpd/a./logs/2020-03.t/a."
          data := "[10/Mar/2020:14:22:01 +0000] x\n" }) := by
  refine ⟨?_, by decide, ?_, by decide⟩
  · intro d hd
    have := List.count_pos_iff.mpr hd
    rw [split_domain_length]
    omega
  · intro cfg entry h1 h2 hd
    have hparts : 2 ≤ (split_domain (domainOf entry.data)).length := by
      have := List.count_pos_iff.mpr hd
      rw [split_domain_length]
      omega
    unfold process_entry
    rw [if_pos ⟨h1, h2⟩, if_pos hparts]
    cases hx : extract_datetime (accessOf entry.data) <;> simp

/-- C10, witness: the domain field `"x.y"` contains a dot and yields two
labels, and the two-label check passes on a concrete routed line. -/
theorem C10_dot_domains_routable_witness :
    ('.' ∈ "x.y".data ∧ 2 ≤ (split_domain "x.y".data).length) ∧
    (log_start "a. [10/Mar/2020:14:22:01 +0000] x".data <
        "a. [10/Mar/2020:14:22:01 +0000] x".data.length ∧
      domain_start "a. [10/Mar/2020:14:22:01 +0000] x".data <
        domain_end "a. [10/Mar/2020:14:22:01 +0000] x".data ∧
      '.' ∈ domainOf "a. [10/Mar/2020:14:22:01 +0000] x".data ∧
      process_entry ⟨"/home/httpd", ".t"⟩ "a. [10/Mar/2020:14:22:01 +0000] x" ≠
        Except.ok none) :=
  ⟨⟨by decide, C10_dot_domains_routable.1 _ (by decide)⟩,
   ⟨by decide, by decide, by decide,
    C10_dot_domains_routable.2.2.1 ⟨"/home/httpd", ".t"⟩ _ (by decide) (by decide) (by decide)⟩⟩

/-- C6, amended.  For NUL-free input (embedded NUL bytes are out of scope),
`decDecode` succeeds exactly when the whole string is optional whitespace, an
optional single sign and a non-empty digit run — or when the string is empty,
in which case `strtol` consumes nothing, leaves `err` at the terminator, and
`decDecode` returns 0 instead of failing.  Trailing non-numeric content after
that prefix fails with the parse error. -/
theorem C6_strtol_success_iff (s : List Char) (hnul : ∀ c ∈ s, c ≠ '\x00') :
    (decDecode s).isOk = true ↔ (s = [] ∨ NumShape s) := by
  constructor
  · intro h
    have hget := decDecode_ok_getD s h
    by_cases hD : strtolDigits s = []
    · left
      rw [strtol10_end_nil s hD] at hget
      cases s with
      | nil => rfl
      | cons c cs =>
        simp at hget
        exact absurd hget (hnul c (by simp))
    · right
      have hsplit : s = (s.takeWhile isSpaceB ++ (skipSpaces s).take (signLen s) ++
          strtolDigits s) ++ ((skipSpaces s).drop (signLen s)).dropWhile isDigitB := by
        conv_lhs => rw [strtol_decomp s]
        simp [List.append_assoc]
      have he : (strtol10 s).2 = (s.takeWhile isSpaceB ++ (skipSpaces s).take (signLen s) ++
          strtolDigits s).length := by
        rw [strtol10_end_cons s hD]
        simp [List.length_append, signPart_length s]
        omega
      rw [he] at hget
      have hgetA : ((s.takeWhile isSpaceB ++ (skipSpaces s).take (signLen s) ++
          strtolDigits s) ++ ((skipSpaces s).drop (signLen s)).dropWhile isDigitB).getD
            (s.takeWhile isSpaceB ++ (skipSpaces s).take (signLen s) ++
              strtolDigits s).length '\x00' = '\x00' := by
        conv_lhs => rw [← hsplit]
        exact hget
      have hRnil : ((skipSpaces s).drop (signLen s)).dropWhile isDigitB = [] :=
        append_getD_nul _ _ (hsplit ▸ hnul) hgetA
      refine ⟨s.takeWhile isSpaceB, (skipSpaces s).take (signLen s), strtolDigits s,
        ?_, ?_, signPart_cases s, hD, ?_⟩
      · conv_lhs => rw [hsplit, hRnil]
        simp
      · intro c hc; exact List.mem_takeWhile_imp hc
      · intro c hc; exact List.mem_takeWhile_imp hc
  · rintro (rfl | ⟨w, g, d, rfl, hw, hg, hd, hdig⟩)
    · decide
    · have hhead : ∀ c, (g ++ d).head? = some c → isSpaceB c = false := by
        intro c hc
        rcases hg with rfl | rfl | rfl
        · cases d with
          | nil => exact absurd rfl hd
          | cons c0 cs =>
            simp at hc
            subst hc
            exact isDigitB_not_space _ (hdig _ (by simp))
        · simp at hc; subst hc; decide
        · simp at hc; subst hc; decide
      have hSS : skipSpaces (w ++ g ++ d) = g ++ d := by
        unfold skipSpaces
        rw [List.append_assoc]
        exact dropWhile_append_eq _ w (g ++ d) hw hhead
      have hTW : (w ++ g ++ d).takeWhile isSpaceB = w := by
        rw [List.append_assoc]
        exact takeWhile_append_eq _ w (g ++ d) hw hhead
      have hSL : signLen (w ++ g ++ d) = g.length := by
        unfold signLen
        rw [hSS]
        rcases hg with rfl | rfl | rfl
        · rw [if_neg]
          · simp
          · cases d with
            | nil => exact absurd rfl hd
            | cons c0 cs =>
              have h0 := hdig c0 (by simp)
              simp
              exact ⟨isDigitB_not_plus c0 h0, isDigitB_not_minus c0 h0⟩
        · rw [if_pos (by simp)]; simp
        · rw [if_pos (by simp)]; simp
      have hDig : strtolDigits (w ++ g ++ d) = d := by
        unfold strtolDigits
        rw [hSS, hSL, List.drop_left]
        exact takeWhile_self_eq _ d hdig
      have he : (strtol10 (w ++ g ++ d)).2 = (w ++ g ++ d).length := by
        rw [strtol10_end_cons _ (by rw [hDig]; exact hd), hTW, hSL, hDig]
        simp [List.length_append]
        omega
      unfold decDecode
      rw [he, List.getD_eq_default _ _ (le_refl _)]
      simp

/-- C6, witness for the amended characterization at `" +42"`. -/
theorem C6_strtol_success_iff_witness :
    (∀ c ∈ " +42".data, c ≠ '\x00') ∧
    ((decDecode " +42".data).isOk = true ↔
      (" +42".data = [] ∨ NumShape " +42".data)) :=
  ⟨by decide, C6_strtol_success_iff " +42".data (by decide)⟩

/-- C7, amended.  Whenever a command-line argument is present — whatever its
content — the suffix is `"."` followed by the longest lowercase-letter prefix
of the argument, and is therefore never the empty string; the suffix is empty
only when no argument is given.  (`[a-z]*` can match the empty string, so the
search never fails; it matches at position 0, greedily.) -/
theorem C7_suffix_always_dotted (a : String) :
    computeSuffix (some a) = "." ++ String.mk (a.data.takeWhile isLowerB) ∧
    computeSuffix (some a) ≠ "" ∧
    computeSuffix none = "" := by
  refine ⟨rfl, ?_, rfl⟩
  intro h
  have h1 : computeSuffix (some a) =
      "." ++ String.mk (a.data.takeWhile isLowerB) := rfl
  rw [h1] at h
  have hlen := congrArg String.length h
  rw [String.length_append] at hlen
  have h2 : ("." : String).length = 1 := rfl
  have h3 : ("" : String).length = 0 := rfl
  have h4 : (String.mk (a.data.takeWhile isLowerB)).length =
      (a.data.takeWhile isLowerB).length := rfl
  rw [h2, h3, h4] at hlen
  omega

/-- C4, amended.  For a text with a signature match: extraction succeeds if
and only if the match splits into exactly 7 tokens (on the separator set `[`,
`]`, `/`, `:`, space, dropping empty parts) AND every token decodes in its
positional role; with fewer than 7 tokens that all decode, it fails with the
"not found or not complete" error (the same error as for no match at all);
with more than 7 tokens whose first 7 decode, it fails with the distinct
"Invalid date & time format" error.  (A token that fails to decode makes the
extraction fail with that decode error instead, whatever the token count.) -/
theorem C4_token_arity (s : List Char) (i : Nat) (hm : findMatch s = some i) :
    ((extract_datetime s).isOk = true ↔
      ((matchToks s i).length = 7 ∧ allPosOK 0 (matchToks s i) = true)) ∧
    ((matchToks s i).length < 7 → allPosOK 0 (matchToks s i) = true →
      extract_datetime s = Except.error DtErr.notFoundOrIncomplete) ∧
    (7 < (matchToks s i).length → allPosOK 0 ((matchToks s i).take 7) = true →
      extract_datetime s = Except.error DtErr.invalidFormat) := by
  have hx : extract_datetime s =
      (match decToks (matchToks s i) 0 dt0 false with
       | Except.error e => Except.error e
       | Except.ok (res, valid) =>
         if valid then Except.ok res else Except.error DtErr.notFoundOrIncomplete) := by
    unfold extract_datetime
    rw [hm]
  refine ⟨⟨?_, ?_⟩, ?_, ?_⟩
  · intro h
    rw [hx] at h
    cases hd : decToks (matchToks s i) 0 dt0 false with
    | error e => rw [hd] at h; simp at h
    | ok p =>
      obtain ⟨r, b⟩ := p
      rw [hd] at h
      cases b with
      | false => simp at h
      | true =>
        have hall := decToks_ok_allPosOK _ _ _ _ _ hd
        rcases decToks_ok_true_ge7 _ _ _ _ _ hd with hv | hge
        · simp at hv
        · have hne : matchToks s i ≠ [] := by
            intro hnil
            rw [hnil] at hge
            simp at hge
          have hle := decToks_ok_le7 _ _ _ _ _ hne hd
          exact ⟨by omega, hall⟩
  · rintro ⟨hlen, hall⟩
    obtain ⟨r, hd⟩ :=
      decToks_run_full (matchToks s i) 0 dt0 false (by omega) (by omega) hall
    rw [hx, hd]
    simp
  · intro hlen hall
    obtain ⟨r, hd⟩ := decToks_run_short (matchToks s i) 0 dt0 false (by omega) hall
    rw [hx, hd]
    simp
  · intro hlen hall
    have hd := decToks_run_long (matchToks s i) 0 dt0 false (by omega) (by omega)
      (by simpa using hall)
    rw [hx, hd]

/-- C4, witness for the amended theorem at a text whose match splits into
exactly 7 decodable tokens. -/
theorem C4_token_arity_witness :
    findMatch "[10/Mar/2020:14:22:01 +0000]".data = some 0 ∧
    (((extract_datetime "[10/Mar/2020:14:22:01 +0000]".data).isOk = true ↔
      ((matchToks "[10/Mar/2020:14:22:01 +0000]".data 0).length = 7 ∧
        allPosOK 0 (matchToks "[10/Mar/2020:14:22:01 +0000]".data 0) = true)) ∧
    ((matchToks "[10/Mar/2020:14:22:01 +0000]".data 0).length < 7 →
      allPosOK 0 (matchToks "[10/Mar/2020:14:22:01 +0000]".data 0) = true →
      extract_datetime "[10/Mar/2020:14:22:01 +0000]".data =
        Except.error DtErr.notFoundOrIncomplete) ∧
    (7 < (matchToks "[10/Mar/2020:14:22:01 +0000]".data 0).length →
      allPosOK 0 ((matchToks "[10/Mar/2020:14:22:01 +0000]".data 0).take 7) = true →
      extract_datetime "[10/Mar/2020:14:22:01 +0000]".data =
        Except.error DtErr.invalidFormat)) :=
  ⟨by decide, C4_token_arity "[10/Mar/2020:14:22:01 +0000]".data 0 (by decide)⟩

/-- C3, amended.  For every routed line, the destination directory is
`prefix`, `/`, the second-to-last label, `.`, the last label, `/logs/`, the
year rendering, `-`, the month rendering and the suffix, and the file is the
directory plus `/` plus the full un-split domain; the month rendering is
always the month zero-padded to 2 digits, and the year rendering equals the
year zero-padded to 4 digits whenever the year is non-negative (negative
years are rendered unpadded, which the counterexample exhibits).  The path
depends only on the domain labels, the year and month fields, and the
configuration. -/
theorem C3_path_formula (cfg : Config) (entry : String) (w : WriteReq) (t : datetime)
    (hw : process_entry cfg entry = Except.ok (some w))
    (ht : extract_datetime (accessOf entry.data) = Except.ok t)
    (hy : 0 ≤ t.year) :
    w.dir = cfg.rootDir ++ "/" ++
      String.mk ((split_domain (domainOf entry.data)).getD
        ((split_domain (domainOf entry.data)).length - 2) []) ++ "." ++
      String.mk ((split_domain (domainOf entry.data)).getD
        ((split_domain (domainOf entry.data)).length - 1) []) ++ "/logs/" ++
      String.mk (specPad (decEncode t.year) 4) ++ "-" ++
      String.mk (specPad (decEncode t.month) 2) ++ cfg.suffix ∧
    w.path = w.dir ++ "/" ++ String.mk (domainOf entry.data) := by
  unfold process_entry at hw
  split at hw
  · split at hw
    · rw [ht] at hw
      simp only [Except.ok.injEq, Option.some.injEq] at hw
      subst hw
      refine ⟨?_, rfl⟩
      dsimp only
      unfold log_dir
      obtain ⟨ky, ry, hky, hky10⟩ := decEncode_head t.year hy
      have hmb := extract_ok_month (accessOf entry.data) t ht
      obtain ⟨km, rm, hkm, hkm10⟩ := decEncode_head t.month (by omega)
      rw [leadzero_eq_specPad_digit _ 4 ky ry hky hky10,
          leadzero_eq_specPad_digit _ 2 km rm hkm hkm10]
    · simp at hw
  · simp at hw

/-- C3, witness for the amended theorem at the spec's end-to-end line. -/
theorem C3_path_formula_witness :
    process_entry ⟨"/home/httpd", ""⟩
        "  example.com [10/Mar/2020:14:22:01 +0000] GET /index.html 200" =
      Except.ok (some
        { dir := "/home/httpd/example.com/logs/2020-03"
          path := "/home/httpd/example.com/logs/2020-03/example.com"
          data := "[10/Mar/2020:14:22:01 +0000] GET /index.html 200\n" }) ∧
    extract_datetime
        (accessOf "  example.com [10/Mar/2020:14:22:01 +0000] GET /index.html 200".data) =
      Except.ok ⟨2020, 3, 10, 14, 22, 1, 0⟩ ∧
    (0 : Int) ≤ (2020 : Int) ∧
    (WriteReq.mk "/home/httpd/example.com/logs/2020-03"
        "/home/httpd/example.com/logs/2020-03/example.com"
        "[10/Mar/2020:14:22:01 +0000] GET /index.html 200\n").dir =
      ("/home/httpd" : String) ++ "/" ++
        String.mk ((split_domain (domainOf
          "  example.com [10/Mar/2020:14:22:01 +0000] GET /index.html 200".data)).getD
          ((split_domain (domainOf
            "  example.com [10/Mar/2020:14:22:01 +0000] GET /index.html 200".data)).length - 2) []) ++
        "." ++
        String.mk ((split_domain (domainOf
          "  example.com [10/Mar/2020:14:22:01 +0000] GET /index.html 200".data)).getD
          ((split_domain (domainOf
            "  example.com [10/Mar/2020:14:22:01 +0000] GET /index.html 200".data)).length - 1) []) ++
        "/logs/" ++
        String.mk (specPad (decEncode (2020 : Int)) 4) ++ "-" ++
        String.mk (specPad (decEncode (3 : Int)) 2) ++ "" :=
  ⟨by decide, by decide, by decide,
   (C3_path_formula ⟨"/home/httpd", ""⟩
     "  example.com [10/Mar/2020:14:22:01 +0000] GET /index.html 200"
     (WriteReq.mk "/home/httpd/example.com/logs/2020-03"
       "/home/httpd/example.com/logs/2020-03/example.com"
       "[10/Mar/2020:14:22:01 +0000] GET /index.html 200\n")
     ⟨2020, 3, 10, 14, 22, 1, 0⟩ (by decide) (by decide) (by decide)).1⟩

end Accesslog
